import Mathlib

/-!
Verification of the concurrency coordination primitives described by the
specification of the goblogs memory-model examples.  The repository's source
(`src/memorymodel/memorymodel.go`) only *calls* the primitives (goroutine
spawning, channels, mutexes are part of the Go runtime), so the primitives
themselves are modelled here from the specification's words, and the Go
examples appear as concrete instantiations in the witnesses.
-/

namespace MemModel

/-- Modelled from the spec: the Channel data model of §3 (the channel
implementation lives in the Go runtime, not under `src/`).  A channel has a
fixed capacity `cap`, the list `sent` of values whose sends have completed (so
`sent.length` is the send sequence number `s`), the number `recvIssued` of
receives that have been issued (`r` in the k/C rule), the number `recvCount`
of receives that have completed, and the open/closed flag. -/
structure Channel where
  cap : Nat
  sent : List Nat
  recvIssued : Nat
  recvCount : Nat
  closed : Bool
deriving DecidableEq

/-- A channel freshly created with `new(capacity)`: empty, open, counters 0. -/
def Channel.init (C : Nat) : Channel :=
  ⟨C, [], 0, 0, false⟩

/-- Channel micro-events: a receive being issued, a send completing with a
value, a receive completing by taking the next value, a receive completing on
a closed drained channel with the "no value" indicator, and the close. -/
inductive CEvent where
  | recvStart
  | sendDone (v : Nat)
  | recvTake
  | recvClosed
  | closeCh
deriving DecidableEq

/-- Modelled from the spec: one atomic channel transition (§4.2).  `none`
means the event is not enabled (the caller blocks, it does not fail).
`sendDone v` enforces the k/C ordering rule: a send assigned sequence
`s = sent.length + 1` may complete only once receive `s - cap` has been
issued, i.e. `s ≤ cap + recvIssued`, and never on a closed channel.
`recvTake` completes receive number `recvCount + 1`, which requires that the
receive has been issued and that send number `recvCount + 1` has completed.
`recvClosed` is the immediate "closed, no value" completion, enabled exactly
when the channel is closed and the buffer is drained. -/
def cstep (c : Channel) : CEvent → Option Channel
  | CEvent.recvStart => some { c with recvIssued := c.recvIssued + 1 }
  | CEvent.sendDone v =>
      if c.closed = false ∧ c.sent.length + 1 ≤ c.cap + c.recvIssued then
        some { c with sent := c.sent ++ [v] }
      else none
  | CEvent.recvTake =>
      if c.recvCount < c.recvIssued ∧ c.recvCount < c.sent.length then
        some { c with recvCount := c.recvCount + 1 }
      else none
  | CEvent.recvClosed =>
      if c.recvCount < c.recvIssued ∧ c.closed = true ∧ c.sent.length ≤ c.recvCount then
        some { c with recvCount := c.recvCount + 1 }
      else none
  | CEvent.closeCh =>
      if c.closed = false then some { c with closed := true } else none

/-- Run a sequence of channel events; `none` when some event is not enabled. -/
def crun (c : Channel) : List CEvent → Option Channel
  | [] => some c
  | e :: es =>
      match cstep c e with
      | some c1 => crun c1 es
      | none => none

theorem cstep_cap_eq {c c' : Channel} {e : CEvent} (h : cstep c e = some c') :
    c'.cap = c.cap := by
  cases e <;> simp only [cstep] at h
  · cases h; rfl
  all_goals
    split at h
    · cases h; rfl
    · cases h

theorem cstep_closed_mono {c c' : Channel} {e : CEvent} (h : cstep c e = some c')
    (hcl : c.closed = true) : c'.closed = true := by
  cases e <;> simp only [cstep] at h
  · cases h; exact hcl
  case sendDone v =>
    split at h
    · cases h; exact hcl
    · cases h
  case recvTake =>
    split at h
    · cases h; exact hcl
    · cases h
  case recvClosed =>
    split at h
    · cases h; exact hcl
    · cases h
  case closeCh =>
    split at h
    · cases h; rfl
    · cases h

/-- The k/C bound `sent.length ≤ cap + recvIssued` is preserved by every
channel transition. -/
theorem cstep_kc {c c' : Channel} {e : CEvent} (h : cstep c e = some c')
    (hkc : c.sent.length ≤ c.cap + c.recvIssued) :
    c'.sent.length ≤ c'.cap + c'.recvIssued := by
  cases e <;> simp only [cstep] at h
  · cases h; simp; omega
  case sendDone v =>
    split at h
    case isTrue hg =>
      cases h
      simpa using hg.2
    case isFalse => cases h
  case recvTake =>
    split at h
    · cases h; exact hkc
    · cases h
  case recvClosed =>
    split at h
    · cases h; exact hkc
    · cases h
  case closeCh =>
    split at h
    · cases h; exact hkc
    · cases h

theorem crun_cap_eq {c c' : Channel} {evs : List CEvent} (h : crun c evs = some c') :
    c'.cap = c.cap := by
  induction evs generalizing c with
  | nil => cases h; rfl
  | cons e es ih =>
      simp only [crun] at h
      cases hstep : cstep c e with
      | none => rw [hstep] at h; cases h
      | some c1 =>
          rw [hstep] at h
          exact (ih h).trans (cstep_cap_eq hstep)

theorem crun_closed_mono {c c' : Channel} {evs : List CEvent} (h : crun c evs = some c')
    (hcl : c.closed = true) : c'.closed = true := by
  induction evs generalizing c with
  | nil => cases h; exact hcl
  | cons e es ih =>
      simp only [crun] at h
      cases hstep : cstep c e with
      | none => rw [hstep] at h; cases h
      | some c1 =>
          rw [hstep] at h
          exact ih h (cstep_closed_mono hstep hcl)

theorem crun_kc {c c' : Channel} {evs : List CEvent} (h : crun c evs = some c')
    (hkc : c.sent.length ≤ c.cap + c.recvIssued) :
    c'.sent.length ≤ c'.cap + c'.recvIssued := by
  induction evs generalizing c with
  | nil => cases h; exact hkc
  | cons e es ih =>
      simp only [crun] at h
      cases hstep : cstep c e with
      | none => rw [hstep] at h; cases h
      | some c1 =>
          rw [hstep] at h
          exact ih h (cstep_kc hstep hkc)

/-- Claim C1: for every channel of capacity `C > 0`, in every reachable state
completed sends minus issued receives never exceeds `C` (the k/C rule: send
`s` completes only once receive `s − C` has been issued); and as long as
fewer than `C` sends have completed, a send completes without any receive
having been issued. -/
theorem claimC1_buffered_kc_rule (C : Nat) (hC : 0 < C) (evs : List CEvent)
    (c : Channel) (h : crun (Channel.init C) evs = some c) :
    c.sent.length ≤ C + c.recvIssued ∧
    (c.closed = false → c.sent.length < C → ∀ v,
      cstep c (CEvent.sendDone v) = some { c with sent := c.sent ++ [v] }) := by
  have hcap : c.cap = C := crun_cap_eq h
  constructor
  · have := crun_kc h (by simp [Channel.init])
    omega
  · intro hop hlt v
    simp only [cstep, if_pos (show c.closed = false ∧
      c.sent.length + 1 ≤ c.cap + c.recvIssued from ⟨hop, by omega⟩)]

/-- Witness for C1: capacity 3 (the spec's buffered scenario), sends 1..3
complete with no receive issued, send 4 completes only after receive 1 is
issued. -/
theorem claimC1_buffered_kc_rule_w :
    (Channel.mk 3 [1, 2, 3, 4] 1 0 false).sent.length ≤
        3 + (Channel.mk 3 [1, 2, 3, 4] 1 0 false).recvIssued ∧
    ((Channel.mk 3 [1, 2, 3, 4] 1 0 false).closed = false →
      (Channel.mk 3 [1, 2, 3, 4] 1 0 false).sent.length < 3 → ∀ v,
      cstep (Channel.mk 3 [1, 2, 3, 4] 1 0 false) (CEvent.sendDone v) =
        some { Channel.mk 3 [1, 2, 3, 4] 1 0 false with
                 sent := (Channel.mk 3 [1, 2, 3, 4] 1 0 false).sent ++ [v] }) :=
  claimC1_buffered_kc_rule 3 (by decide)
    [CEvent.sendDone 1, CEvent.sendDone 2, CEvent.sendDone 3,
     CEvent.recvStart, CEvent.sendDone 4]
    (Channel.mk 3 [1, 2, 3, 4] 1 0 false) (by decide)

/-- The fatal channel error kinds of §7. -/
inductive ChanError where
  | SendOnClosed
  | DoubleClose
deriving DecidableEq

/-- Modelled from the spec: `send(value)` viewed at one instant (§4.2, §6).
On a closed channel it fails fatally with `SendOnClosed`; with a free k/C
slot it completes (`Except.ok (some _)`); otherwise the caller blocks
(`Except.ok none`). -/
def sendNow (c : Channel) (v : Nat) : Except ChanError (Option Channel) :=
  if c.closed = true then Except.error ChanError.SendOnClosed
  else if c.sent.length + 1 ≤ c.cap + c.recvIssued then
    Except.ok (some { c with sent := c.sent ++ [v] })
  else Except.ok none

/-- Modelled from the spec: `receive()` viewed at one instant (§4.2, §6).
If a value is available (send number `recvCount + 1` has completed) it is
yielded with `ok = true`; otherwise, if the channel is closed, the call
returns immediately with the "closed, no value" indicator `(0, false)`;
otherwise the caller blocks (`none`). -/
def receiveNow (c : Channel) : Option ((Nat × Bool) × Channel) :=
  if h : c.recvCount < c.sent.length then
    some ((c.sent.get ⟨c.recvCount, h⟩, true),
      { c with recvIssued := c.recvIssued + 1, recvCount := c.recvCount + 1 })
  else if c.closed = true then
    some ((0, false),
      { c with recvIssued := c.recvIssued + 1, recvCount := c.recvCount + 1 })
  else none

/-- Modelled from the spec: `close()` transitions open→closed exactly once;
a second close is the fatal `DoubleClose` (§4.2, §7). -/
def closeNow (c : Channel) : Except ChanError Channel :=
  if c.closed = true then Except.error ChanError.DoubleClose
  else Except.ok { c with closed := true }

/-- `n` consecutive receives, collecting the `(value, ok)` results;
`none` as soon as one of them blocks. -/
def receiveN (c : Channel) : Nat → Option (List (Nat × Bool))
  | 0 => some []
  | n + 1 =>
      match receiveNow c with
      | some (rv, c1) => (receiveN c1 n).map (fun l => rv :: l)
      | none => none

/-- Claim C3: on a closed channel, once the buffer is drained
(`sent.length ≤ recvCount`), every receive — any number of them, forever —
returns immediately (never blocks) with the "closed, no value" indicator
`(0, false)`; and a buffered value present at close time is still yielded
with `ok = true` by the next receive before the indicator begins. -/
theorem claimC3_closed_receive (c : Channel) (hcl : c.closed = true) :
    (∀ n, c.sent.length ≤ c.recvCount →
      receiveN c n = some (List.replicate n (0, false))) ∧
    (∀ h : c.recvCount < c.sent.length, ∃ c1,
      receiveNow c = some ((c.sent.get ⟨c.recvCount, h⟩, true), c1) ∧
        c1.closed = true) := by
  constructor
  · intro n
    induction n generalizing c with
    | zero => intro _; simp [receiveN]
    | succ m ih =>
        intro hdr
        have hnot : ¬ c.recvCount < c.sent.length := by omega
        simp only [receiveN, receiveNow, dif_neg hnot, if_pos hcl]
        rw [ih { c with recvIssued := c.recvIssued + 1, recvCount := c.recvCount + 1 }
          hcl (by simp; omega)]
        simp [List.replicate]
  · intro h
    refine ⟨{ c with recvIssued := c.recvIssued + 1, recvCount := c.recvCount + 1 },
      ?_, hcl⟩
    simp only [receiveNow, dif_pos h]

/-- Witness for C3: the spec's close-semantics scenario (Example4-like) — a
channel closed with one unread buffered value: the next receive yields that
value with `ok = true`. -/
theorem claimC3_closed_receive_w :
    (∀ n, (Channel.mk 10 [7] 0 0 true).sent.length ≤
        (Channel.mk 10 [7] 0 0 true).recvCount →
      receiveN (Channel.mk 10 [7] 0 0 true) n = some (List.replicate n (0, false))) ∧
    (∀ h : (Channel.mk 10 [7] 0 0 true).recvCount <
        (Channel.mk 10 [7] 0 0 true).sent.length, ∃ c1,
      receiveNow (Channel.mk 10 [7] 0 0 true) =
        some (((Channel.mk 10 [7] 0 0 true).sent.get
          ⟨(Channel.mk 10 [7] 0 0 true).recvCount, h⟩, true), c1) ∧
        c1.closed = true) :=
  claimC3_closed_receive (Channel.mk 10 [7] 0 0 true) (by decide)

/-- Claim C9: on a closed channel a send fails fatally with `SendOnClosed`
(it neither blocks nor succeeds), and the failure is not recoverable by
retrying: after any further sequence of channel events the channel is still
closed and the send still fails with `SendOnClosed`. -/
theorem claimC9_send_on_closed (c : Channel) (hcl : c.closed = true) (v : Nat)
    (evs : List CEvent) (c1 : Channel) (h : crun c evs = some c1) :
    sendNow c v = Except.error ChanError.SendOnClosed ∧
    sendNow c1 v = Except.error ChanError.SendOnClosed := by
  have hcl1 : c1.closed = true := crun_closed_mono h hcl
  constructor
  · simp only [sendNow, if_pos hcl]
  · simp only [sendNow, if_pos hcl1]

/-- Witness for C9: a freshly closed channel of capacity 10; the send fails
now and still fails after a drain receive. -/
theorem claimC9_send_on_closed_w :
    sendNow (Channel.mk 10 [7] 0 0 true) 5 = Except.error ChanError.SendOnClosed ∧
    sendNow (Channel.mk 10 [7] 1 1 true) 5 = Except.error ChanError.SendOnClosed :=
  claimC9_send_on_closed (Channel.mk 10 [7] 0 0 true) (by decide) 5
    [CEvent.recvStart, CEvent.recvTake] (Channel.mk 10 [7] 1 1 true) (by decide)

/-- Recognizer for completed-send events in a channel trace. -/
def CEvent.isSendDone : CEvent → Bool
  | CEvent.sendDone _ => true
  | _ => false

theorem cstep_sendDone {c c' : Channel} {v : Nat}
    (h : cstep c (CEvent.sendDone v) = some c') :
    c.closed = false ∧ c.sent.length + 1 ≤ c.cap + c.recvIssued ∧
    c' = { c with sent := c.sent ++ [v] } := by
  simp only [cstep] at h
  split at h
  case isTrue hg => cases h; exact ⟨hg.1, hg.2, rfl⟩
  case isFalse => cases h

theorem cstep_recvTake {c c' : Channel} (h : cstep c CEvent.recvTake = some c') :
    c.recvCount < c.recvIssued ∧ c.recvCount < c.sent.length ∧
    c' = { c with recvCount := c.recvCount + 1 } := by
  simp only [cstep] at h
  split at h
  case isTrue hg => cases h; exact ⟨hg.1, hg.2, rfl⟩
  case isFalse => cases h

theorem cstep_recvClosed {c c' : Channel} (h : cstep c CEvent.recvClosed = some c') :
    c.recvCount < c.recvIssued ∧ c.closed = true ∧ c.sent.length ≤ c.recvCount ∧
    c' = { c with recvCount := c.recvCount + 1 } := by
  simp only [cstep] at h
  split at h
  case isTrue hg => cases h; exact ⟨hg.1, hg.2.1, hg.2.2, rfl⟩
  case isFalse => cases h

/-- Each transition extends `sent` by one exactly when it is a completed
send, so `sent.length` counts the `sendDone` events of the trace. -/
theorem cstep_sent_count {c c' : Channel} {e : CEvent} (h : cstep c e = some c') :
    c'.sent.length = c.sent.length + (if e.isSendDone then 1 else 0) := by
  cases e <;> simp only [cstep, CEvent.isSendDone] at h ⊢
  · cases h; simp
  case sendDone v =>
    split at h
    · cases h; simp
    · cases h
  case recvTake =>
    split at h
    · cases h; simp
    · cases h
  case recvClosed =>
    split at h
    · cases h; simp
    · cases h
  case closeCh =>
    split at h
    · cases h; simp
    · cases h

theorem cstep_closed_src {c c' : Channel} {e : CEvent} (h : cstep c e = some c')
    (hcl : c'.closed = true) : c.closed = true ∨ e = CEvent.closeCh := by
  cases e <;> simp only [cstep] at h
  · cases h; exact Or.inl hcl
  case sendDone v =>
    split at h
    · cases h; exact Or.inl hcl
    · cases h
  case recvTake =>
    split at h
    · cases h; exact Or.inl hcl
    · cases h
  case recvClosed =>
    split at h
    · cases h; exact Or.inl hcl
    · cases h
  case closeCh => exact Or.inr rfl

theorem crun_sent_count {c c' : Channel} {evs : List CEvent}
    (h : crun c evs = some c') :
    c'.sent.length = c.sent.length + evs.countP (fun e => e.isSendDone) := by
  induction evs generalizing c with
  | nil => cases h; simp
  | cons e es ih =>
      simp only [crun] at h
      cases hstep : cstep c e with
      | none => rw [hstep] at h; cases h
      | some c1 =>
          rw [hstep] at h
          rw [ih h, cstep_sent_count hstep, List.countP_cons]
          omega

theorem crun_closed_src {c c' : Channel} {evs : List CEvent}
    (h : crun c evs = some c') (hcl : c'.closed = true) :
    c.closed = true ∨ CEvent.closeCh ∈ evs := by
  induction evs generalizing c with
  | nil => cases h; exact Or.inl hcl
  | cons e es ih =>
      simp only [crun] at h
      cases hstep : cstep c e with
      | none => rw [hstep] at h; cases h
      | some c1 =>
          rw [hstep] at h
          rcases ih h with h1 | h1
          · rcases cstep_closed_src hstep h1 with h2 | h2
            · exact Or.inl h2
            · exact Or.inr (h2 ▸ List.mem_cons_self e es)
          · exact Or.inr (List.mem_cons_of_mem e h1)

/-- Claim C10: in every channel history, the `k`-th send is ordered-before
the completion of the receive that observes it — when a receive completes as
receive number `k = recvCount + 1`, at least `k` `sendDone` events already
occur in the preceding trace (so the yielded value, `sent.get recvCount`, is
the value of send `k`); likewise a receive that completes with the closed
indicator is preceded by the close event in the trace. -/
theorem claimC10_send_before_receive (C : Nat) (pre : List CEvent) (c1 : Channel)
    (h1 : crun (Channel.init C) pre = some c1) :
    (∀ c2, cstep c1 CEvent.recvTake = some c2 →
      c2.recvCount ≤ pre.countP (fun e => e.isSendDone)) ∧
    (∀ c2, cstep c1 CEvent.recvClosed = some c2 → CEvent.closeCh ∈ pre) := by
  have hcount : c1.sent.length = pre.countP (fun e => e.isSendDone) := by
    have := crun_sent_count h1
    simpa [Channel.init] using this
  constructor
  · intro c2 h2
    obtain ⟨-, hlt, hc2⟩ := cstep_recvTake h2
    rw [hc2]
    simp only []
    omega
  · intro c2 h2
    obtain ⟨-, hcl, -, -⟩ := cstep_recvClosed h2
    rcases crun_closed_src h1 hcl with hbad | hmem
    · simp [Channel.init] at hbad
    · exact hmem

/-- Witness for C10: after one completed send and one issued receive on a
capacity-10 channel, the receive that completes is receive 1 and one send
event indeed precedes it in the trace. -/
theorem claimC10_send_before_receive_w :
    (∀ c2, cstep (Channel.mk 10 [7] 1 0 false) CEvent.recvTake = some c2 →
      c2.recvCount ≤
        ([CEvent.sendDone 7, CEvent.recvStart].countP (fun e => e.isSendDone))) ∧
    (∀ c2, cstep (Channel.mk 10 [7] 1 0 false) CEvent.recvClosed = some c2 →
      CEvent.closeCh ∈ [CEvent.sendDone 7, CEvent.recvStart]) :=
  claimC10_send_before_receive 10 [CEvent.sendDone 7, CEvent.recvStart]
    (Channel.mk 10 [7] 1 0 false) (by decide)

/-- Claim C8: on a capacity-0 channel, a send cannot complete until the
matching receive has been issued — when send number `s = sent.length + 1`
completes, at least `s` receives have already been issued — and the matching
receive completes only after that send has completed; the two operations
therefore bracket each other as a synchronous rendezvous, so everything the
sender did before the send is ordered-before (hence visible after) the
completion of the receive. -/
theorem claimC8_unbuffered_rendezvous (pre : List CEvent) (c1 : Channel) (v : Nat)
    (h1 : crun (Channel.init 0) pre = some c1) :
    (∀ c2, cstep c1 (CEvent.sendDone v) = some c2 →
      c2.sent.length ≤ c1.recvIssued) ∧
    (∀ c2, cstep c1 CEvent.recvTake = some c2 → c2.recvCount ≤ c1.sent.length) := by
  have hcap : c1.cap = 0 := by
    have := crun_cap_eq h1
    simpa [Channel.init] using this
  constructor
  · intro c2 h2
    obtain ⟨-, hkc, hc2⟩ := cstep_sendDone h2
    rw [hc2]
    simp only [List.length_append, List.length_cons, List.length_nil]
    omega
  · intro c2 h2
    obtain ⟨-, hlt, hc2⟩ := cstep_recvTake h2
    rw [hc2]
    simp only []
    omega

/-- Witness for C8: an unbuffered channel with one receive issued and no
send yet completed (the rendezvous point of Example5). -/
theorem claimC8_unbuffered_rendezvous_w :
    (∀ c2, cstep (Channel.mk 0 [] 1 0 false) (CEvent.sendDone 5) = some c2 →
      c2.sent.length ≤ (Channel.mk 0 [] 1 0 false).recvIssued) ∧
    (∀ c2, cstep (Channel.mk 0 [] 1 0 false) CEvent.recvTake = some c2 →
      c2.recvCount ≤ (Channel.mk 0 [] 1 0 false).sent.length) :=
  claimC8_unbuffered_rendezvous [CEvent.recvStart] (Channel.mk 0 [] 1 0 false) 5
    (by decide)

/-- Modelled from the spec: the Mutex data model of §3/§4.3 (`sync.Mutex`
lives in the Go runtime, not under `src/`).  `holder` is the context holding
the lock, `acq` the number of acquisitions that have returned, `rel` the
number of completed releases. -/
structure MState where
  holder : Option Nat
  acq : Nat
  rel : Nat
deriving DecidableEq

def MState.init : MState :=
  ⟨none, 0, 0⟩

/-- Mutex events: `lockRet t` is `lock()` returning to context `t`,
`unlockDone t` is `unlock()` by context `t` completing. -/
inductive MEvent where
  | lockRet (t : Nat)
  | unlockDone (t : Nat)
deriving DecidableEq

/-- Modelled from the spec: one mutex transition (§4.3).  A `lock()` can
return only when the lock is free; an `unlock()` can complete only for the
holder; `none` means the event cannot occur (the locker blocks). -/
def mstep (m : MState) : MEvent → Option MState
  | MEvent.lockRet t =>
      match m.holder with
      | none => some ⟨some t, m.acq + 1, m.rel⟩
      | some _ => none
  | MEvent.unlockDone t =>
      if m.holder = some t then some ⟨none, m.acq, m.rel + 1⟩ else none

def mrun (m : MState) : List MEvent → Option MState
  | [] => some m
  | e :: es =>
      match mstep m e with
      | some m1 => mrun m1 es
      | none => none

theorem mstep_inv {m m' : MState} {e : MEvent} (h : mstep m e = some m')
    (hinv : m.acq = m.rel + (if m.holder.isSome then 1 else 0)) :
    m'.acq = m'.rel + (if m'.holder.isSome then 1 else 0) := by
  cases e with
  | lockRet t =>
      simp only [mstep] at h
      cases hh : m.holder with
      | none => rw [hh] at h hinv; cases h; simp at hinv ⊢; omega
      | some u => rw [hh] at h; cases h
  | unlockDone t =>
      simp only [mstep] at h
      split at h
      case isTrue hg => cases h; rw [hg] at hinv; simp at hinv ⊢; omega
      case isFalse => cases h

theorem mrun_inv {m m' : MState} {tr : List MEvent} (h : mrun m tr = some m')
    (hinv : m.acq = m.rel + (if m.holder.isSome then 1 else 0)) :
    m'.acq = m'.rel + (if m'.holder.isSome then 1 else 0) := by
  induction tr generalizing m with
  | nil => cases h; exact hinv
  | cons e es ih =>
      simp only [mrun] at h
      cases hstep : mstep m e with
      | none => rw [hstep] at h; cases h
      | some m1 =>
          rw [hstep] at h
          exact ih h (mstep_inv hstep hinv)

/-- The Mutex error kind of §7. -/
inductive MutexError where
  | UnlockNotHeld
deriving DecidableEq

/-- Modelled from the spec: `unlock()` as an operation returning an error
value (§6, §9 "dynamic error signaling via panics becomes explicit
`fails(ErrorKind)` values"): it succeeds only for the context holding the
lock, transitioning held→free, and fails with `UnlockNotHeld` for every
other caller. -/
def unlockBy (m : MState) (t : Nat) : Except MutexError MState :=
  if m.holder = some t then Except.ok ⟨none, m.acq, m.rel + 1⟩
  else Except.error MutexError.UnlockNotHeld

/-- Claim C7: `unlock()` by a context that does not hold the lock fails with
the fatal `UnlockNotHeld`; it succeeds exactly when called by the holder,
transitioning the lock from held to free. -/
theorem claimC7_unlock_not_held (m : MState) (t : Nat) :
    (m.holder ≠ some t → unlockBy m t = Except.error MutexError.UnlockNotHeld) ∧
    (m.holder = some t → unlockBy m t = Except.ok ⟨none, m.acq, m.rel + 1⟩) := by
  constructor
  · intro hne
    simp only [unlockBy, if_neg hne]
  · intro heq
    simp only [unlockBy, if_pos heq]

/-- Witness for C7: context 2 unlocking a mutex held by context 1 fails with
`UnlockNotHeld`. -/
theorem claimC7_unlock_not_held_w :
    ((MState.mk (some 1) 1 0).holder ≠ some 2 →
      unlockBy (MState.mk (some 1) 1 0) 2 =
        Except.error MutexError.UnlockNotHeld) ∧
    ((MState.mk (some 1) 1 0).holder = some 2 →
      unlockBy (MState.mk (some 1) 1 0) 2 =
        Except.ok ⟨none, (MState.mk (some 1) 1 0).acq,
          (MState.mk (some 1) 1 0).rel + 1⟩) :=
  claimC7_unlock_not_held (MState.mk (some 1) 1 0) 2

/-- Modelled from the spec: the two-context contention scenario of §8 test 5
(Example7 in the source).  Context A runs `lock(); a := 1; unlock()`
(program counter `pcA` 0..3), context B runs `lock(); r := a; unlock()`
(`pcB` 0..3) on the same mutex over the shared variable `a`.  `obsA` records
the value of `pcA` at the instant B's `lock()` returns, so `obsA = 3` states
that A's release happened before B's acquisition returned. -/
structure LockDemo where
  pcA : Nat
  pcB : Nat
  holder : Option Bool
  a : Nat
  r : Nat
  obsA : Nat
deriving DecidableEq

def dinit : LockDemo :=
  ⟨0, 0, none, 0, 0, 0⟩

/-- One scheduler step of the contention scenario: `true` runs context A,
`false` runs context B; a context blocked on `lock()` (or already finished)
leaves the state unchanged. -/
def dstep (s : LockDemo) : Bool → LockDemo
  | true =>
      if s.pcA = 0 then
        (if s.holder = none then { s with pcA := 1, holder := some true } else s)
      else if s.pcA = 1 then { s with pcA := 2, a := 1 }
      else if s.pcA = 2 then { s with pcA := 3, holder := none }
      else s
  | false =>
      if s.pcB = 0 then
        (if s.holder = none then
          { s with pcB := 1, holder := some false, obsA := s.pcA }
        else s)
      else if s.pcB = 1 then { s with pcB := 2, r := s.a }
      else if s.pcB = 2 then { s with pcB := 3, holder := none }
      else s

def dexec (s : LockDemo) : List Bool → LockDemo
  | [] => s
  | t :: ts => dexec (dstep s t) ts

/-- Inductive invariant of the contention scenario: each context holds the
lock throughout its critical section, A's write is in place from `pcA = 2`
on, and at the moment B's lock returns A is either not started or fully
released — never mid-critical-section — so if A released first, B reads 1. -/
def dinv (s : LockDemo) : Prop :=
  s.pcA ≤ 3 ∧
  s.pcB ≤ 3 ∧
  (s.pcA = 1 ∨ s.pcA = 2 → s.holder = some true) ∧
  (s.pcB = 1 ∨ s.pcB = 2 → s.holder = some false) ∧
  (2 ≤ s.pcA → s.a = 1) ∧
  (1 ≤ s.pcB → s.obsA = 0 ∨ s.obsA = 3) ∧
  (1 ≤ s.pcB → s.obsA = 3 → 3 ≤ s.pcA ∧ s.a = 1) ∧
  (2 ≤ s.pcB → s.obsA = 3 → s.r = 1)

theorem dinv_step (s : LockDemo) (t : Bool) (h : dinv s) : dinv (dstep s t) := by
  obtain ⟨pcA, pcB, holder, a, r, obsA⟩ := s
  obtain ⟨h0, h00, h1, h2, h3, h4, h5, h6⟩ := h
  cases t <;> simp only [dstep] <;> split_ifs <;>
    refine ⟨?_, ?_, ?_, ?_, ?_, ?_, ?_, ?_⟩ <;> intros <;> (try simp_all) <;>
    first
      | rfl
      | assumption
      | omega
      | (exfalso; omega)

theorem dexec_inv (sched : List Bool) (s : LockDemo) (h : dinv s) :
    dinv (dexec s sched) := by
  induction sched generalizing s with
  | nil => exact h
  | cons t ts ih => exact ih _ (dinv_step s t h)

theorem dinv_init : dinv dinit := by
  simp [dinv, dinit]

/-- Claim C4: releases and subsequent acquisitions of a mutex form a total
order — in every reachable mutex state the number of returned acquisitions
equals the completed releases plus one exactly when the lock is held, so
when acquisition `m` returns all `m - 1` earlier acquisitions have been
released (release `n` is ordered-before the return of acquisition `m` for
every `n < m`); and in the two-context scenario, B's lock return never
observes A mid-critical-section, and whenever A locked, wrote and unlocked
before B's lock returned, B reads A's write. -/
theorem claimC4_mutex_order (tr : List MEvent) (m : MState)
    (h1 : mrun MState.init tr = some m) (sched : List Bool) :
    (m.acq = m.rel + (if m.holder.isSome then 1 else 0)) ∧
    (1 ≤ (dexec dinit sched).pcB →
      (dexec dinit sched).obsA = 0 ∨ (dexec dinit sched).obsA = 3) ∧
    (2 ≤ (dexec dinit sched).pcB → (dexec dinit sched).obsA = 3 →
      (dexec dinit sched).r = 1) := by
  have hd := dexec_inv sched dinit dinv_init
  exact ⟨mrun_inv h1 (by simp [MState.init]), hd.2.2.2.2.2.1, hd.2.2.2.2.2.2.2⟩

/-- Witness for C4: the schedule where A runs its whole critical section and
then B runs — B's lock return observes `obsA = 3` and B reads 1; the mutex
trace `lock A, unlock A, lock B` satisfies the acquisition/release count
invariant. -/
theorem claimC4_mutex_order_w :
    ((MState.mk (some 1) 2 1).acq = (MState.mk (some 1) 2 1).rel +
      (if (MState.mk (some 1) 2 1).holder.isSome then 1 else 0)) ∧
    (1 ≤ (dexec dinit [true, true, true, false, false, false]).pcB →
      (dexec dinit [true, true, true, false, false, false]).obsA = 0 ∨
        (dexec dinit [true, true, true, false, false, false]).obsA = 3) ∧
    (2 ≤ (dexec dinit [true, true, true, false, false, false]).pcB →
      (dexec dinit [true, true, true, false, false, false]).obsA = 3 →
      (dexec dinit [true, true, true, false, false, false]).r = 1) :=
  claimC4_mutex_order [MEvent.lockRet 0, MEvent.unlockDone 0, MEvent.lockRet 1]
    (MState.mk (some 1) 2 1) (by decide) [true, true, true, false, false, false]

/-- Modelled from the spec: the spawn-ordering scenario of §4.1/§8 test 1
(Example1 in the source).  The parent runs `a := 1; spawn(body); a := 2`
(`pcP` 0..3) and the spawned body reads `r := a` (`pcC` 0..1).  The child
exists — can be scheduled — only once `spawned` is set by the `spawn` step,
which is what makes the spawn call ordered-before the start of the body. -/
structure SpawnDemo where
  pcP : Nat
  spawned : Bool
  pcC : Nat
  a : Nat
  r : Nat
deriving DecidableEq

def sinit : SpawnDemo :=
  ⟨0, false, 0, 0, 0⟩

/-- One scheduler step: `true` runs the parent, `false` runs the child (a
no-op before the child has been spawned or after it finished). -/
def sstep (s : SpawnDemo) : Bool → SpawnDemo
  | true =>
      if s.pcP = 0 then { s with pcP := 1, a := 1 }
      else if s.pcP = 1 then { s with pcP := 2, spawned := true }
      else if s.pcP = 2 then { s with pcP := 3, a := 2 }
      else s
  | false =>
      if s.spawned = true ∧ s.pcC = 0 then { s with pcC := 1, r := s.a }
      else s

def sexec (s : SpawnDemo) : List Bool → SpawnDemo
  | [] => s
  | t :: ts => sexec (sstep s t) ts

/-- Inductive invariant of the spawn scenario: the spawn step is preceded by
the parent's first write, so whenever the child has read, it read 1 or 2 —
never the initial 0. -/
def sinv (s : SpawnDemo) : Prop :=
  (s.spawned = true → 2 ≤ s.pcP) ∧
  (1 ≤ s.pcP → s.a = 1 ∨ s.a = 2) ∧
  (s.pcC = 1 → s.r = 1 ∨ s.r = 2)

theorem sinv_step (s : SpawnDemo) (t : Bool) (h : sinv s) : sinv (sstep s t) := by
  obtain ⟨pcP, spawned, pcC, a, r⟩ := s
  obtain ⟨h1, h2, h3⟩ := h
  cases t <;> simp only [sstep] <;> split_ifs <;>
    refine ⟨?_, ?_, ?_⟩ <;> intros <;> (try simp_all) <;>
    first
      | rfl
      | assumption
      | omega
      | (exfalso; omega)

theorem sexec_inv (sched : List Bool) (s : SpawnDemo) (h : sinv s) :
    sinv (sexec s sched) := by
  induction sched generalizing s with
  | nil => exact h
  | cons t ts ih => exact ih _ (sinv_step s t h)

/-- Claim C5: every memory effect of the caller prior to `spawn(body)` is
visible to `body` when it starts — in every schedule, the child's read sees
the pre-spawn write `a := 1` or the later value 2, never the initial 0 — and
writes the caller performs after the spawn carry no such guarantee: there is
a schedule in which the parent finished (so `a := 2` was performed) yet the
body read 1, and also a schedule in which the body read 2, so the ordering
is one-directional, creation-to-start only. -/
theorem claimC5_spawn_ordering (sched : List Bool) :
    ((sexec sinit sched).pcC = 1 →
      (sexec sinit sched).r = 1 ∨ (sexec sinit sched).r = 2) ∧
    (∃ sch, (sexec sinit sch).pcC = 1 ∧ (sexec sinit sch).pcP = 3 ∧
      (sexec sinit sch).r = 1) ∧
    (∃ sch, (sexec sinit sch).pcC = 1 ∧ (sexec sinit sch).pcP = 3 ∧
      (sexec sinit sch).r = 2) := by
  refine ⟨?_, ⟨[true, true, false, true], by decide⟩,
    ⟨[true, true, true, false], by decide⟩⟩
  intro hc
  have hs := sexec_inv sched sinit (by simp [sinv, sinit])
  exact hs.2.2 hc

/-- Witness for C5: the schedule running the parent to completion and then
the child; the child reads 2. -/
theorem claimC5_spawn_ordering_w :
    ((sexec sinit [true, true, true, false]).pcC = 1 →
      (sexec sinit [true, true, true, false]).r = 1 ∨
        (sexec sinit [true, true, true, false]).r = 2) ∧
    (∃ sch, (sexec sinit sch).pcC = 1 ∧ (sexec sinit sch).pcP = 3 ∧
      (sexec sinit sch).r = 1) ∧
    (∃ sch, (sexec sinit sch).pcC = 1 ∧ (sexec sinit sch).pcP = 3 ∧
      (sexec sinit sch).r = 2) :=
  claimC5_spawn_ordering [true, true, true, false]

/-- Channel occupancy: completed sends whose values have not been received. -/
def occupancy (c : Channel) : Nat :=
  c.sent.length - c.recvCount

/-- Abnormal termination of a caller-supplied work item. -/
inductive WorkError where
  | Failed
deriving DecidableEq

/-- Releasing a Limiter ticket: receive the token back from the internal
channel (issue the receive and take the token; never blocks when a token is
present). -/
def releaseTicket (c : Channel) : Option Channel :=
  match cstep c CEvent.recvStart with
  | some c1 => cstep c1 CEvent.recvTake
  | none => none

theorem releaseTicket_eq {c c2 : Channel} (h : releaseTicket c = some c2) :
    c2.cap = c.cap ∧ c2.sent = c.sent ∧ c2.closed = c.closed ∧
    c2.recvIssued = c.recvIssued + 1 ∧ c2.recvCount = c.recvCount + 1 := by
  simp only [releaseTicket, cstep] at h
  split at h
  · cases h; exact ⟨rfl, rfl, rfl, rfl, rfl⟩
  · cases h

theorem releaseTicket_some (c : Channel) (h1 : c.recvIssued = c.recvCount)
    (h2 : c.recvCount < c.sent.length) :
    releaseTicket c =
      some { c with recvIssued := c.recvIssued + 1, recvCount := c.recvCount + 1 } := by
  simp only [releaseTicket, cstep]
  rw [if_pos]
  exact ⟨by simp [h1], h2⟩

/-- Modelled from the spec: `Limiter.run(work)` (§4.4) — acquire one ticket
(send a token into the internal channel; `none` means the caller blocks),
execute `work`, then release the ticket on every exit path of `work`,
including abnormal termination. -/
def limiterRun (c : Channel) (work : Except WorkError Nat) :
    Option (Except WorkError Nat × Channel) :=
  (cstep c (CEvent.sendDone 1)).bind (fun c1 =>
    match work with
    | Except.ok v => (releaseTicket c1).map (fun c2 => (Except.ok v, c2))
    | Except.error e => (releaseTicket c1).map (fun c2 => (Except.error e, c2)))

/-- Claim C6: whenever `run(work)` completes, the work's outcome — normal or
abnormal — is passed through unchanged and the ticket taken before `work`
began has been given back: the internal channel's occupancy after `run` is
exactly what it was before, on the failure path just as on the success
path. -/
theorem claimC6_ticket_release (c : Channel) (work res : Except WorkError Nat)
    (c' : Channel) (h : limiterRun c work = some (res, c')) :
    res = work ∧ occupancy c' = occupancy c := by
  simp only [limiterRun] at h
  cases hs : cstep c (CEvent.sendDone 1) with
  | none => rw [hs] at h; cases h
  | some c1 =>
      rw [hs] at h
      simp only [Option.some_bind] at h
      obtain ⟨-, -, hc1⟩ := cstep_sendDone hs
      have hrel : ∀ c2, releaseTicket c1 = some c2 →
          occupancy c2 = occupancy c := by
        intro c2 hr
        obtain ⟨-, hsent, -, -, hrc⟩ := releaseTicket_eq hr
        rw [hc1] at hsent hrc
        simp only [occupancy, hsent, hrc, List.length_append, List.length_cons,
          List.length_nil]
        omega
      cases work with
      | ok v =>
          cases hr : releaseTicket c1 with
          | none => rw [hr] at h; simp only [Option.map_none'] at h; cases h
          | some c2 =>
              rw [hr] at h
              simp only [Option.map_some'] at h
              cases h
              exact ⟨rfl, hrel _ hr⟩
      | error e =>
          cases hr : releaseTicket c1 with
          | none => rw [hr] at h; simp only [Option.map_none'] at h; cases h
          | some c2 =>
              rw [hr] at h
              simp only [Option.map_some'] at h
              cases h
              exact ⟨rfl, hrel _ hr⟩

/-- Witness for C6: a limiter channel of capacity 3, a failing work item —
`run` returns the failure and the occupancy is restored to 0. -/
theorem claimC6_ticket_release_w :
    Except.error WorkError.Failed = (Except.error WorkError.Failed :
        Except WorkError Nat) ∧
    occupancy (Channel.mk 3 [1] 1 1 false) = occupancy (Channel.init 3) :=
  claimC6_ticket_release (Channel.init 3) (Except.error WorkError.Failed)
    (Except.error WorkError.Failed) (Channel.mk 3 [1] 1 1 false) (by rfl)

/-- Modelled from the spec: a population of identical work items submitted
to one Limiter (§4.4, §8 test 6; Example6 in the source).  `n0` items are
waiting to acquire a ticket, `n1` are inside their admitted work (holding a
ticket), `n3` have completed; `ch` is the Limiter's internal channel of
capacity `N` used as the semaphore. -/
structure LimState where
  n0 : Nat
  n1 : Nat
  n3 : Nat
  ch : Channel
deriving DecidableEq

inductive LEvent where
  | acquire
  | release
deriving DecidableEq

/-- One limiter-system transition: `acquire` admits a waiting item by
sending a token into the internal channel (blocks — `none` — when the
channel has no free k/C slot), `release` completes an admitted item's work
and receives the token back. -/
def lstep (s : LimState) : LEvent → Option LimState
  | LEvent.acquire =>
      if 0 < s.n0 then
        (cstep s.ch (CEvent.sendDone 1)).map
          (fun ch1 => ⟨s.n0 - 1, s.n1 + 1, s.n3, ch1⟩)
      else none
  | LEvent.release =>
      if 0 < s.n1 then
        (releaseTicket s.ch).map (fun ch1 => ⟨s.n0, s.n1 - 1, s.n3 + 1, ch1⟩)
      else none

def lrun (s : LimState) : List LEvent → Option LimState
  | [] => some s
  | e :: es =>
      match lstep s e with
      | some s1 => lrun s1 es
      | none => none

/-- `M` work items submitted to a fresh Limiter of capacity `N`. -/
def linit (M N : Nat) : LimState :=
  ⟨M, 0, 0, Channel.init N⟩

/-- Inductive invariant of the limiter system: the internal channel stays
open, receives are only ever issued when they can complete at once, the
channel occupancy equals the number of items inside their work, that number
never exceeds `N`, and no item is lost. -/
def linv (N M : Nat) (s : LimState) : Prop :=
  s.ch.cap = N ∧
  s.ch.closed = false ∧
  s.ch.recvIssued = s.ch.recvCount ∧
  s.ch.sent.length = s.ch.recvCount + s.n1 ∧
  s.n1 ≤ N ∧
  s.n0 + s.n1 + s.n3 = M

theorem lstep_inv {N M : Nat} {s s' : LimState} {e : LEvent}
    (h : lstep s e = some s') (hinv : linv N M s) : linv N M s' := by
  obtain ⟨hcap, hop, hri, hlen, hn1, hsum⟩ := hinv
  cases e with
  | acquire =>
      simp only [lstep] at h
      split at h
      case isFalse => cases h
      case isTrue h0 =>
        cases hs : cstep s.ch (CEvent.sendDone 1) with
        | none => rw [hs] at h; cases h
        | some ch1 =>
            rw [hs] at h
            simp only [Option.map_some'] at h
            cases h
            obtain ⟨-, hkc, hch1⟩ := cstep_sendDone hs
            subst hch1
            simp only [linv]
            try dsimp only
            refine ⟨hcap, hop, hri, ?_, ?_, ?_⟩
            · simp only [List.length_append, List.length_cons, List.length_nil]
              omega
            · omega
            · omega
  | release =>
      simp only [lstep] at h
      split at h
      case isFalse => cases h
      case isTrue h1 =>
        cases hs : releaseTicket s.ch with
        | none => rw [hs] at h; cases h
        | some ch1 =>
            rw [hs] at h
            simp only [Option.map_some'] at h
            cases h
            obtain ⟨hc, hsent, hcl, hrise, hrc⟩ := releaseTicket_eq hs
            have hsl : ch1.sent.length = s.ch.sent.length := by rw [hsent]
            simp only [linv]
            try dsimp only
            refine ⟨hc.trans hcap, hcl.trans hop, ?_, ?_, ?_, ?_⟩
            · omega
            · omega
            · omega
            · omega

theorem lrun_inv {N M : Nat} {s s' : LimState} {evs : List LEvent}
    (h : lrun s evs = some s') (hinv : linv N M s) : linv N M s' := by
  induction evs generalizing s with
  | nil => cases h; exact hinv
  | cons e es ih =>
      simp only [lrun] at h
      cases hstep : lstep s e with
      | none => rw [hstep] at h; cases h
      | some s1 =>
          rw [hstep] at h
          exact ih h (lstep_inv hstep hinv)

theorem lstep_release_some {N M : Nat} (s : LimState) (hinv : linv N M s)
    (h1 : 0 < s.n1) :
    lstep s LEvent.release = some ⟨s.n0, s.n1 - 1, s.n3 + 1,
      { s.ch with recvIssued := s.ch.recvIssued + 1,
                  recvCount := s.ch.recvCount + 1 }⟩ := by
  obtain ⟨-, -, hri, hlen, -, -⟩ := hinv
  simp only [lstep, if_pos h1]
  rw [releaseTicket_some s.ch hri (by omega)]
  simp only [Option.map_some']

theorem lstep_acquire_some {N M : Nat} (s : LimState) (hinv : linv N M s)
    (hN : 1 ≤ N) (h0 : 0 < s.n0) (h10 : s.n1 = 0) :
    lstep s LEvent.acquire = some ⟨s.n0 - 1, s.n1 + 1, s.n3,
      { s.ch with sent := s.ch.sent ++ [1] }⟩ := by
  obtain ⟨hcap, hop, hri, hlen, -, -⟩ := hinv
  simp only [lstep, if_pos h0, cstep]
  rw [if_pos ⟨hop, by omega⟩]
  simp only [Option.map_some']

/-- From any invariant state, a schedule exists that completes all items:
strong induction on the measure `2 * n0 + n1`. -/
theorem lim_progress (N M : Nat) (hN : 1 ≤ N) :
    ∀ k s, linv N M s → 2 * s.n0 + s.n1 ≤ k →
      ∃ evs t, lrun s evs = some t ∧ t.n3 = M := by
  intro k
  induction k with
  | zero =>
      intro s hinv hm
      refine ⟨[], s, rfl, ?_⟩
      obtain ⟨-, -, -, -, -, hsum⟩ := hinv
      omega
  | succ k ih =>
      intro s hinv hm
      by_cases h1 : 0 < s.n1
      · have hstep := lstep_release_some s hinv h1
        obtain ⟨evs, t, hrun, hn3⟩ := ih _ (lstep_inv hstep hinv)
          (show 2 * s.n0 + (s.n1 - 1) ≤ k by omega)
        refine ⟨LEvent.release :: evs, t, ?_, hn3⟩
        simp only [lrun, hstep]
        exact hrun
      · by_cases h0 : 0 < s.n0
        · have h10 : s.n1 = 0 := by omega
          have hstep := lstep_acquire_some s hinv hN h0 h10
          obtain ⟨evs, t, hrun, hn3⟩ := ih _ (lstep_inv hstep hinv)
            (show 2 * (s.n0 - 1) + (s.n1 + 1) ≤ k by omega)
          refine ⟨LEvent.acquire :: evs, t, ?_, hn3⟩
          simp only [lrun, hstep]
          exact hrun
        · refine ⟨[], s, rfl, ?_⟩
          obtain ⟨-, -, -, -, -, hsum⟩ := hinv
          omega

/-- Claim C2: for a Limiter of capacity `N ≥ 1` with `M` submitted work
items, in every reachable system state at most `N` items are inside their
admitted work simultaneously, and from every reachable state a schedule
exists under which all `M` items complete. -/
theorem claimC2_limiter_bound (M N : Nat) (hN : 1 ≤ N) (evs : List LEvent)
    (s : LimState) (h : lrun (linit M N) evs = some s) :
    s.n1 ≤ N ∧ ∃ more t, lrun s more = some t ∧ t.n3 = M := by
  have hinv : linv N M s := lrun_inv h
    (by simp [linv, linit, Channel.init])
  refine ⟨hinv.2.2.2.2.1, ?_⟩
  exact lim_progress N M hN (2 * s.n0 + s.n1) s hinv le_rfl

/-- Witness for C2: ten items on a capacity-3 limiter (the spec's test 6)
after three acquisitions — three items are inside the work, within the
bound, and completion remains reachable. -/
theorem claimC2_limiter_bound_w :
    (LimState.mk 7 3 0 (Channel.mk 3 [1, 1, 1] 0 0 false)).n1 ≤ 3 ∧
    ∃ more t, lrun (LimState.mk 7 3 0 (Channel.mk 3 [1, 1, 1] 0 0 false)) more =
      some t ∧ t.n3 = 10 :=
  claimC2_limiter_bound 10 3 (by decide)
    [LEvent.acquire, LEvent.acquire, LEvent.acquire]
    (LimState.mk 7 3 0 (Channel.mk 3 [1, 1, 1] 0 0 false)) (by rfl)

end MemModel
